import Mathlib

/-!
Verification of the PSX market-data service (src/services/psxService.ts).

This file gives a shallow embedding of the pure core of the service:

* the time-series normalizer `parseJSONChartData` (field coercion, sort,
  interval bucketing, output cap) together with its helpers
  `getDataLimitForInterval`, `getIntervalMinutes`, `getIntervalKey` and
  `aggregateDataByInterval`;
* the snapshot parser `parseHTMLData` over an abstract table document;
* `calculateMarketSummary`.

Modelling conventions:

* JavaScript numbers are modelled as exact rationals.  `NaN` is modelled
  explicitly (as `JsNum.nan`) where it can reach a stored field
  (`parseHTMLData`); in the chart pipeline the `|| 0` defaulting removes
  `NaN` before anything is stored, so chart prices are plain `ℚ`.
  Binary floating-point rounding noise and the `Infinity` values are not
  modelled: prices and volumes in scope are small decimals for which the
  float computations of the source coincide with exact arithmetic.
* `Date` handling follows ECMA-262 on a host whose local timezone is UTC
  (the source uses `getMinutes`/`setMinutes`, which read the host zone;
  on whole-hour offsets the derived bucket keys coincide with the UTC
  ones for every supported intraday width, since all widths divide 60).
* `Map` iteration order is insertion order, modelled by an association
  list that appends fresh keys at the end.
* `Array.prototype.sort` with comparator `(a, b) => a.timestamp - b.timestamp`
  produces the stable ascending permutation (ES2019 stability), modelled
  by insertion sort, which computes exactly that permutation.
* String-to-number coercions model the plain-decimal fragment of the JS
  numeric grammar (optional sign, digits, optional fraction); exponent
  and hexadecimal forms, `Infinity`, and `null` (whose `ToNumber` is 0)
  are mapped to the failing case like any other non-numeric input.
-/

namespace PSX

/-- Digits of a decimal string, folded to a natural number. -/
def digitsVal (ds : List Char) : Nat :=
  ds.foldl (fun acc c => 10 * acc + (c.toNat - 48)) 0

/-- Value of an integer digit block `ip` followed by a fractional block `fp`,
in normalized `mkRat` form so that it evaluates by kernel reduction;
`decValue_eq` below identifies it with `ip + fp / 10 ^ length`. -/
def decValue (ip fp : List Char) : ℚ :=
  mkRat ((digitsVal ip * 10 ^ fp.length + digitsVal fp : Nat) : Int)
    (10 ^ fp.length)

/-- Longest-prefix decimal parse used by `parseFloat`: optional integer part,
optional point and fraction, at least one digit overall; trailing garbage is
ignored.  Returns `none` where JS returns `NaN`. -/
def parseDecPrefix (cs : List Char) : Option ℚ :=
  let ip := cs.takeWhile Char.isDigit
  let rest := cs.dropWhile Char.isDigit
  match rest with
  | '.' :: rest2 =>
      let fp := rest2.takeWhile Char.isDigit
      if ip.isEmpty ∧ fp.isEmpty then none
      else some (decValue ip fp)
  | _ => if ip.isEmpty then none else some (digitsVal ip : ℚ)

/-- Whole-string decimal parse used by `ToNumber` on strings: the entire
(trimmed) string must be a signless decimal numeral. -/
def parseDecAll (cs : List Char) : Option ℚ :=
  let ip := cs.takeWhile Char.isDigit
  let rest := cs.dropWhile Char.isDigit
  match rest with
  | [] => if ip.isEmpty then none else some (digitsVal ip : ℚ)
  | '.' :: rest2 =>
      let fp := rest2.takeWhile Char.isDigit
      if (rest2.dropWhile Char.isDigit).isEmpty ∧ ¬(ip.isEmpty ∧ fp.isEmpty)
      then some (decValue ip fp)
      else none
  | _ => none

/-- Optional sign in front of a numeric body. -/
def parseSigned (cs : List Char) (f : List Char → Option ℚ) : Option ℚ :=
  match cs with
  | '-' :: rest => (f rest).map (fun q => -q)
  | '+' :: rest => f rest
  | _ => f cs

/-- JS `parseFloat` on a string: skip leading whitespace, read the longest
numeric prefix; `none` models `NaN`. -/
def parseFloatStr (s : String) : Option ℚ :=
  parseSigned (s.toList.dropWhile Char.isWhitespace) parseDecPrefix

/-- JS `parseInt` (radix 10) on a string: skip leading whitespace, optional
sign, then the longest digit prefix; `none` models `NaN`. -/
def parseIntStr (s : String) : Option Int :=
  let body : List Char → Option Int := fun cs =>
    let ds := cs.takeWhile Char.isDigit
    if ds.isEmpty then none else some (digitsVal ds : Int)
  match s.toList.dropWhile Char.isWhitespace with
  | '-' :: rest => (body rest).map (fun n => -n)
  | '+' :: rest => body rest
  | cs => body cs

/-- JS `ToNumber` of a string (used by the `timestamp * 1000` coercion):
whole-string parse; the empty or all-whitespace string is 0. -/
def toNumberStr (s : String) : Option ℚ :=
  let t := (((s.toList.dropWhile Char.isWhitespace).reverse.dropWhile
      Char.isWhitespace).reverse)
  if t.isEmpty then some 0 else parseSigned t parseDecAll

/-- One field of a raw feed tuple (`jsonData.data` items are `any[]`).
`num` is a finite JS number; `str` a string; `other` any value whose numeric
coercions are `NaN` (`undefined`, objects, non-numeric strings are already
covered by `str`). -/
inductive RawField where
  | num (q : ℚ)
  | str (s : String)
  | other
deriving DecidableEq

/-- Truncation toward zero, as in `ToIntegerOrInfinity` (used by `Date` on a
fractional millisecond count and by `parseInt` on a number). -/
def jsTrunc (q : ℚ) : Int := Int.tdiv q.num q.den

/-- JS `parseFloat` applied to a raw field.  On a finite number, JS first
stringifies it and re-reads it, which gives the number back for the
plain-decimal prints in scope. -/
def parseFloatF : RawField → Option ℚ
  | .num q => some q
  | .str s => parseFloatStr s
  | .other => none

/-- JS `parseInt` applied to a raw field.  On a finite number it reads the
digit prefix of the decimal print, i.e. truncates toward zero (numbers whose
print uses exponent form are outside the modelled range). -/
def parseIntF : RawField → Option Int
  | .num q => some (jsTrunc q)
  | .str s => parseIntStr s
  | .other => none

/-- JS `ToNumber` of a raw field, for the `timestamp * 1000` multiplication;
`none` models `NaN`. -/
def jsToNumber : RawField → Option ℚ
  | .num q => some q
  | .str s => toNumberStr s
  | .other => none

/-- Multiplication `q * 1000` of the feed timestamp, written in normalized
`mkRat` form so that it evaluates by kernel reduction; `jsMul1000_eq` below
proves it equal to `q * 1000`. -/
def jsMul1000 (q : ℚ) : ℚ := mkRat (q.num * 1000) q.den

/-- Two-digit zero-padded print. -/
def pad2 (n : Nat) : String := (if n < 10 then "0" else "") ++ toString n

/-- Three-digit zero-padded print. -/
def pad3 (n : Nat) : String :=
  (if n < 10 then "00" else if n < 100 then "0" else "") ++ toString n

/-- Four-digit zero-padded print. -/
def pad4 (n : Nat) : String :=
  (if n < 10 then "000" else if n < 100 then "00" else
    if n < 1000 then "0" else "") ++ toString n

/-- Six-digit zero-padded print (expanded-year form of `toISOString`). -/
def pad6 (n : Nat) : String :=
  (if n < 10 then "00000" else if n < 100 then "0000" else
    if n < 1000 then "000" else if n < 10000 then "00" else
    if n < 100000 then "0" else "") ++ toString n

/-- Year field of `toISOString`: four digits for 0..9999, otherwise the
sign-prefixed six-digit expanded form. -/
def yearStr (y : Int) : String :=
  if 0 ≤ y ∧ y ≤ 9999 then pad4 y.toNat
  else (if y < 0 then "-" else "+") ++ pad6 y.natAbs

/-- Proleptic Gregorian civil date from a day number (days since 1970-01-01),
the standard era-based conversion used by ECMA-262 date computation. -/
def civilFromDays (z : Int) : Int × Nat × Nat :=
  let z2 := z + 719468
  let era := Int.fdiv z2 146097
  let doe := (z2 - era * 146097).toNat
  let yoe := (doe - doe / 1460 + doe / 36524 - doe / 146096) / 365
  let doy := doe - (365 * yoe + yoe / 4 - yoe / 100)
  let mp := (5 * doy + 2) / 153
  let d := doy - (153 * mp + 2) / 5 + 1
  let m := if mp < 10 then mp + 3 else mp - 9
  let y : Int := (yoe : Int) + era * 400 + (if m ≤ 2 then 1 else 0)
  (y, m, d)

/-- Calendar-date part of `toISOString` for a given day number; this is what
`toISOString().split(T)[0]` yields. -/
def toISODateFromDay (day : Int) : String :=
  let c := civilFromDays day
  yearStr c.1 ++ "-" ++ pad2 c.2.1 ++ "-" ++ pad2 c.2.2

/-- Full `Date.prototype.toISOString()` print of an integral millisecond
timestamp. -/
def toISOStringOfMs (ms : Int) : String :=
  let day := Int.fdiv ms 86400000
  let rem := (ms - day * 86400000).toNat
  toISODateFromDay day ++ "T" ++
    pad2 (rem / 3600000) ++ ":" ++ pad2 (rem / 60000 % 60) ++ ":" ++
    pad2 (rem / 1000 % 60) ++ "." ++ pad3 (rem % 1000) ++ "Z"

/-- Chart granularities (`ChartTimeInterval` in src/types/stock.ts). -/
inductive ChartTimeInterval where
  | min1
  | min5
  | min15
  | min30
  | hour1
  | day1
deriving DecidableEq

/-- Output cap per granularity (`getDataLimitForInterval`, psxService.ts
lines 179-189; the `default` arm of the source switch is unreachable since
the enum is exhaustive). -/
def getDataLimitForInterval : ChartTimeInterval → Nat
  | .min1 => 390
  | .min5 => 390
  | .min15 => 390
  | .min30 => 390
  | .hour1 => 390
  | .day1 => 30

/-- Bucket width in minutes (`getIntervalMinutes`, lines 250-260). -/
def getIntervalMinutes : ChartTimeInterval → Nat
  | .min1 => 1
  | .min5 => 5
  | .min15 => 15
  | .min30 => 30
  | .hour1 => 60
  | .day1 => 1440

/-- Canonical chart point (`ChartDataPoint` in src/types/stock.ts).  The
timestamp is the raw product `timestamp * 1000` and hence a rational. -/
structure ChartDataPoint where
  date : String
  price : ℚ
  volume : Int
  timestamp : ℚ
deriving DecidableEq

/-- Bucket key of a timestamp (`getIntervalKey`, lines 262-276): the UTC
calendar date for daily granularity; otherwise the ISO print of the time with
minutes floored to the interval width and seconds/milliseconds zeroed
(`date.setMinutes(roundedMinutes, 0, 0)` keeps the hour). -/
def getIntervalKey (timestamp : ℚ) (interval : ChartTimeInterval)
    (intervalMinutes : Nat) : String :=
  let dms := jsTrunc timestamp
  if interval = .day1 then toISODateFromDay (Int.fdiv dms 86400000)
  else
    let minutes := (Int.emod (Int.fdiv dms 60000) 60).toNat
    let roundedMinutes := minutes / intervalMinutes * intervalMinutes
    toISOStringOfMs (Int.fdiv dms 3600000 * 3600000 + roundedMinutes * 60000)

/-- Display-date string derived from a timestamp (the
`interval === 1day ? toISOString().split(T)[0] : toISOString()` computation,
shared by lines 146-150 and 234-237). -/
def bucketDate (interval : ChartTimeInterval) (t : ℚ) : String :=
  let dms := jsTrunc t
  if interval = .day1 then toISODateFromDay (Int.fdiv dms 86400000)
  else toISOStringOfMs dms

/-- Bucket key of a point at a granularity (the per-point computation inside
the `aggregateDataByInterval` loop; the source hoists `getIntervalMinutes`
out of the loop, which is observationally identical). -/
def keyOf (interval : ChartTimeInterval) (p : ChartDataPoint) : String :=
  getIntervalKey p.timestamp interval (getIntervalMinutes interval)

/-- In-flight bucket state (the `aggregatedMap` entry of lines 198-203). -/
structure IntervalData where
  key : String
  prices : List ℚ
  volumes : List Int
  timestamp : ℚ
deriving DecidableEq

/-- Fresh bucket for a first point (lines 209-216). -/
def initBucket (k : String) (p : ChartDataPoint) : IntervalData :=
  ⟨k, [p.price], [p.volume], p.timestamp⟩

/-- Push a point onto an existing bucket (lines 218-225): append price and
volume, keep the earliest timestamp. -/
def addPoint (b : IntervalData) (p : ChartDataPoint) : IntervalData :=
  ⟨b.key, b.prices ++ [p.price], b.volumes ++ [p.volume],
    if p.timestamp < b.timestamp then p.timestamp else b.timestamp⟩

/-- One step of the grouping loop: `Map.get`/mutate for a present key,
`Map.set` (which appends in iteration order) for a fresh one. -/
def updateAssoc : List IntervalData → String → ChartDataPoint →
    List IntervalData
  | [], k, p => [initBucket k p]
  | b :: rest, k, p =>
      if b.key = k then addPoint b p :: rest
      else b :: updateAssoc rest k p

/-- The grouping loop of lines 206-226 over a point list, starting from a
given map state. -/
def groupFold (interval : ChartTimeInterval) (l : List ChartDataPoint)
    (m : List IntervalData) : List IntervalData :=
  l.foldl (fun acc p => updateAssoc acc (keyOf interval p) p) m

/-- Rounding performed by `parseFloat(avgPrice.toFixed(2))`: `toFixed(2)`
picks the integer n closest to q*100, preferring the larger n on ties, and
`parseFloat` reads the decimal back; over exact rationals this is
floor(q*100 + 1/2) / 100. -/
def round2 (q : ℚ) : ℚ := (⌊q * 100 + 1 / 2⌋ : ℚ) / 100

/-- Reduce a finished bucket to one chart point (lines 230-245): mean price
rounded to 2 decimals, summed volume, date re-derived from the bucket
timestamp. -/
def reduceBucket (interval : ChartTimeInterval) (b : IntervalData) :
    ChartDataPoint :=
  let avgPrice := b.prices.sum / (b.prices.length : ℚ)
  { date := bucketDate interval b.timestamp,
    price := round2 avgPrice,
    volume := b.volumes.sum,
    timestamp := b.timestamp }

/-- Ascending-timestamp comparison used by both sorts in the source. -/
def tsLe (a b : ChartDataPoint) : Prop := a.timestamp ≤ b.timestamp

instance : DecidableRel tsLe := fun a b =>
  inferInstanceAs (Decidable (a.timestamp ≤ b.timestamp))

instance : IsTotal ChartDataPoint tsLe :=
  ⟨fun a b => le_total a.timestamp b.timestamp⟩

instance : IsTrans ChartDataPoint tsLe :=
  ⟨fun _ _ _ h h2 => le_trans h h2⟩

/-- Body of `aggregateDataByInterval` for a non-passthrough granularity
(lines 197-247): group, reduce each bucket in insertion order, sort by
timestamp. -/
def aggregateGeneral (chartData : List ChartDataPoint)
    (interval : ChartTimeInterval) : List ChartDataPoint :=
  List.insertionSort tsLe
    ((groupFold interval chartData []).map (reduceBucket interval))

/-- Interval aggregation (`aggregateDataByInterval`, lines 191-248): raw
passthrough for 1-minute granularity, bucketing otherwise. -/
def aggregateDataByInterval (chartData : List ChartDataPoint)
    (interval : ChartTimeInterval) : List ChartDataPoint :=
  if interval = .min1 then chartData
  else aggregateGeneral chartData interval

/-- One raw item of the feed payload: either an array of fields or a
non-array value (skipped by the `Array.isArray` check). -/
inductive RawItem where
  | arr (fields : List RawField)
  | notArr
deriving DecidableEq

/-- Processing of one feed item (lines 140-159).  Items that are not arrays
of at least 3 fields are skipped (`.ok none`).  Otherwise price and volume
are coerced with `|| 0` defaulting, and the timestamp is converted with
`new Date(timestamp * 1000).toISOString()`; a `NaN` or out-of-range time
value makes `toISOString` throw, which the surrounding `try` turns into the
synthetic-data fallback (modelled as `.error ()`). -/
def processItem (item : RawItem) (interval : ChartTimeInterval) :
    Except Unit (Option ChartDataPoint) :=
  match item with
  | .notArr => .ok none
  | .arr (f0 :: f1 :: f2 :: _) =>
      let price := (parseFloatF f1).getD 0
      let volume := (parseIntF f2).getD 0
      match jsToNumber f0 with
      | none => .error ()
      | some ts =>
          let ms : ℚ := jsMul1000 ts
          if ms < -8640000000000000 ∨ 8640000000000000 < ms then .error ()
          else
            .ok (some
              { date := bucketDate interval ms,
                price := price,
                volume := volume,
                timestamp := ms })
  | .arr _ => .ok none

/-- The `forEach` collection loop of lines 140-159: points are pushed in
input order; a throw aborts the whole parse. -/
def collectPoints (items : List RawItem) (interval : ChartTimeInterval) :
    Except Unit (List ChartDataPoint) :=
  match items with
  | [] => .ok []
  | it :: rest => do
      let r ← processItem it interval
      let l ← collectPoints rest interval
      pure (match r with | some p => p :: l | none => l)

/-- Sort / aggregate / trim steps of lines 161-169 on an already-collected
point list: stable ascending sort, interval aggregation, then
`slice(-dataLimit)` (the most recent `dataLimit` points). -/
def normalizePoints (pts : List ChartDataPoint)
    (interval : ChartTimeInterval) : List ChartDataPoint :=
  let sorted := List.insertionSort tsLe pts
  let agg := aggregateDataByInterval sorted interval
  agg.drop (agg.length - getDataLimitForInterval interval)

/-- The pure normalizer core of `parseJSONChartData` (lines 133-177), given
the extracted `jsonData.data` array.  The top-level shape check and the
`catch` fallback to synthetic data are outside this core: an `.error`
result is precisely the case in which the source returns mock data. -/
def parseJSONChartData (items : List RawItem)
    (interval : ChartTimeInterval) : Except Unit (List ChartDataPoint) :=
  (collectPoints items interval).map (fun pts => normalizePoints pts interval)

/-- JS number that may be `NaN` (comparisons with `NaN` are all false, and
`NaN` propagates through addition). -/
inductive JsNum where
  | nan
  | val (q : ℚ)
deriving DecidableEq

/-- JS `<` on numbers. -/
def jsLt : JsNum → JsNum → Bool
  | .val a, .val b => decide (a < b)
  | _, _ => false

/-- JS `>` on numbers. -/
def jsGt : JsNum → JsNum → Bool
  | .val a, .val b => decide (b < a)
  | _, _ => false

/-- JS `>=` on numbers (`NaN >= 0` is false). -/
def jsGe : JsNum → JsNum → Bool
  | .val a, .val b => decide (b ≤ a)
  | _, _ => false

/-- JS `===` on numbers (`NaN === NaN` is false). -/
def jsStrictEq : JsNum → JsNum → Bool
  | .val a, .val b => decide (a = b)
  | _, _ => false

/-- JS `+` on numbers. -/
def jsAdd : JsNum → JsNum → JsNum
  | .val a, .val b => .val (a + b)
  | _, _ => .nan

/-- Underlying rational of a non-`NaN` JS number (0 for `NaN`). -/
def JsNum.toQ : JsNum → ℚ
  | .nan => 0
  | .val q => q

/-- JS `parseFloat` of a string as a JS number. -/
def jsParseFloatNum (s : String) : JsNum :=
  match parseFloatStr s with
  | some q => .val q
  | none => .nan

/-- JS `parseInt` of a string as a JS number. -/
def jsParseIntNum (s : String) : JsNum :=
  match parseIntStr s with
  | some n => .val (n : ℚ)
  | none => .nan

/-- One `td` cell of a quote row, as the parser observes it: the text of a
`strong` descendant if any, the `data-title` of an `a` descendant if any
(itself optional, since `getAttribute` may return null), the cell text, and
the `data-order` attribute if present. -/
structure Cell where
  strongText : Option String
  anchorTitle : Option (Option String)
  text : String
  dataOrder : Option String
deriving DecidableEq

/-- Quote record (`StockData` in src/types/stock.ts); `open_` stands for the
source field `open`, which is a Lean keyword. -/
structure StockData where
  symbol : String
  company : String
  sector : String
  ldcp : JsNum
  open_ : JsNum
  high : JsNum
  low : JsNum
  current : JsNum
  change : JsNum
  changePercent : JsNum
  volume : JsNum
  isPositive : Bool
deriving DecidableEq

/-- Per-row body of `parseHTMLData` (lines 506-548).  A row of fewer than 10
cells is skipped by the guard; a row whose first cell lacks the `strong` or
`a` sub-element is skipped; reading `cells[10]` on a row of exactly 10 cells
is an access on `undefined`, whose thrown `TypeError` the inner `catch`
swallows, so such a row is skipped too (`Option.bind` on the cell accesses
models exactly this). -/
def rowToStock (cells : List Cell) : Option StockData :=
  if 10 ≤ cells.length then
    match cells[0]? with
    | none => none
    | some c0 =>
        match c0.strongText, c0.anchorTitle with
        | some st, some title => do
            let c2 ← cells[2]?
            let c3 ← cells[3]?
            let c4 ← cells[4]?
            let c5 ← cells[5]?
            let c6 ← cells[6]?
            let c7 ← cells[7]?
            let c8 ← cells[8]?
            let c9 ← cells[9]?
            let c10 ← cells[10]?
            let change := jsParseFloatNum (c8.dataOrder.getD "0")
            pure
              { symbol := st.trim
                company := title.getD ""
                sector := c2.text.trim
                ldcp := jsParseFloatNum (c3.dataOrder.getD "0")
                open_ := jsParseFloatNum (c4.dataOrder.getD "0")
                high := jsParseFloatNum (c5.dataOrder.getD "0")
                low := jsParseFloatNum (c6.dataOrder.getD "0")
                current := jsParseFloatNum (c7.dataOrder.getD "0")
                change := change
                changePercent := jsParseFloatNum (c9.dataOrder.getD "0")
                volume := jsParseIntNum (c10.dataOrder.getD "0")
                isPositive := jsGe change (JsNum.val 0) }
        | _, _ => none
  else none

/-- Snapshot parser (`parseHTMLData`, lines 500-551) over the list of table
rows of the document, each given by its `td` cells. -/
def parseHTMLData (rows : List (List Cell)) : List StockData :=
  rows.filterMap rowToStock

/-- Market summary record (src/types/stock.ts). -/
structure MarketSummary where
  totalStocks : Nat
  gainers : Nat
  losers : Nat
  unchanged : Nat
  totalVolume : JsNum
deriving DecidableEq

/-- Market summary computation (`calculateMarketSummary`, lines 628-641). -/
def calculateMarketSummary (stocks : List StockData) : MarketSummary :=
  { totalStocks := stocks.length
    gainers := (stocks.filter (fun s => jsGt s.change (JsNum.val 0))).length
    losers := (stocks.filter (fun s => jsLt s.change (JsNum.val 0))).length
    unchanged :=
      (stocks.filter (fun s => jsStrictEq s.change (JsNum.val 0))).length
    totalVolume := stocks.foldl (fun sum s => jsAdd sum s.volume) (JsNum.val 0) }

/-- Lookup of a bucket by key in the association-list map (proof helper for
the `Map.has`/`Map.get` calls). -/
def lookupB : List IntervalData → String → Option IntervalData
  | [], _ => none
  | b :: rest, k => if b.key = k then some b else lookupB rest k

/-- Keys of the map in iteration order (proof helper). -/
def keysOf (m : List IntervalData) : List String := m.map (fun b => b.key)

/-- Update-or-create step on an optional bucket (proof helper describing what
`updateAssoc` does at the looked-up key). -/
def pushB (o : Option IntervalData) (k : String) (p : ChartDataPoint) :
    IntervalData :=
  match o with
  | some b => addPoint b p
  | none => initBucket k p

/-- Input points whose bucket key at a granularity is `k`, in input order
(proof helper naming the members of one bucket). -/
def filterKey (interval : ChartTimeInterval) (k : String)
    (l : List ChartDataPoint) : List ChartDataPoint :=
  l.filter (fun p => decide (keyOf interval p = k))

/-- A point is canonical at a granularity when its price is already rounded
to 2 decimals and its display date is the one derived from its timestamp;
every point produced by `reduceBucket` is canonical, and canonical points
are fixed points of singleton-bucket reduction. -/
def canonicalAt (interval : ChartTimeInterval) (p : ChartDataPoint) : Prop :=
  round2 p.price = p.price ∧ p.date = bucketDate interval p.timestamp

theorem decValue_eq (ip fp : List Char) :
    decValue ip fp = (digitsVal ip : ℚ) + (digitsVal fp : ℚ) / (10 ^ fp.length : ℚ) := by
  have h10 : ((10 : ℚ) ^ fp.length) ≠ 0 := by positivity
  rw [decValue, Rat.mkRat_eq_div]
  push_cast
  field_simp

theorem jsMul1000_eq (q : ℚ) : jsMul1000 q = q * 1000 := by
  conv_rhs => rw [← Rat.num_div_den q]
  rw [jsMul1000, Rat.mkRat_eq_div]
  push_cast
  ring

theorem jsTrunc_intCast (n : ℤ) : jsTrunc ((n : ℚ)) = n := by
  simp [jsTrunc, Rat.num_intCast, Rat.den_intCast]

theorem round2_intCast (n : ℤ) : round2 ((n : ℚ)) = n := by
  have h : ((n : ℚ)) * 100 + 1 / 2 = ((n * 100 : ℤ) : ℚ) + 1 / 2 := by push_cast; ring
  rw [round2, h, Int.floor_int_add]
  have h2 : ⌊(1 / 2 : ℚ)⌋ = 0 := by norm_num
  rw [h2]
  push_cast
  field_simp

theorem round2_idem (q : ℚ) : round2 (round2 q) = round2 q := by
  rw [round2]
  have h : round2 q * 100 + 1 / 2 = ((⌊q * 100 + 1 / 2⌋ : ℚ)) + 1 / 2 := by
    rw [round2]
    have : ((⌊q * 100 + 1 / 2⌋ : ℚ)) / 100 * 100 = ((⌊q * 100 + 1 / 2⌋ : ℚ)) := by
      field_simp
    rw [this]
  rw [h, Int.floor_int_add]
  have h2 : ⌊(1 / 2 : ℚ)⌋ = 0 := by norm_num
  rw [h2, add_zero, round2]

theorem parseJSONChartData_ok {items : List RawItem} {g : ChartTimeInterval}
    {out : List ChartDataPoint} (h : parseJSONChartData items g = .ok out) :
    ∃ pts, collectPoints items g = .ok pts ∧ out = normalizePoints pts g := by
  unfold parseJSONChartData at h
  cases hc : collectPoints items g with
  | error e => rw [hc] at h; exact absurd h (by simp [Except.map])
  | ok pts =>
      rw [hc] at h
      simp only [Except.map, Except.ok.injEq] at h
      exact ⟨pts, rfl, h.symm⟩

theorem sorted_aggregate (pts : List ChartDataPoint) (g : ChartTimeInterval) :
    List.Sorted tsLe (aggregateDataByInterval (List.insertionSort tsLe pts) g) := by
  by_cases hg : g = .min1
  · subst hg
    simpa [aggregateDataByInterval] using List.sorted_insertionSort tsLe pts
  · simp only [aggregateDataByInterval, hg, if_false, aggregateGeneral]
    exact List.sorted_insertionSort tsLe _

theorem sorted_normalizePoints (pts : List ChartDataPoint)
    (g : ChartTimeInterval) : List.Sorted tsLe (normalizePoints pts g) :=
  List.Pairwise.sublist (List.drop_sublist _ _) (sorted_aggregate pts g)

theorem length_normalizePoints (pts : List ChartDataPoint)
    (g : ChartTimeInterval) :
    (normalizePoints pts g).length ≤ getDataLimitForInterval g := by
  unfold normalizePoints
  rw [List.length_drop]
  omega

/-- C1: for every input sequence of raw points and every granularity, the
length of the normalized output is at most the cap for that granularity,
which is 390 for the five intraday granularities and 30 for 1-day. -/
theorem c1_output_cap (items : List RawItem) (g : ChartTimeInterval)
    (out : List ChartDataPoint) (h : parseJSONChartData items g = .ok out) :
    out.length ≤ getDataLimitForInterval g ∧
    getDataLimitForInterval g = (if g = .day1 then 30 else 390) := by
  obtain ⟨pts, _, rfl⟩ := parseJSONChartData_ok h
  exact ⟨length_normalizePoints _ _, by cases g <;> rfl⟩

/-- Witness for C1 at a concrete input. -/
theorem c1_output_cap_witness :
    ([] : List ChartDataPoint).length ≤ getDataLimitForInterval .min1 ∧
    getDataLimitForInterval .min1 =
      (if ChartTimeInterval.min1 = .day1 then 30 else 390) :=
  c1_output_cap [] .min1 [] rfl

/-- C2: the normalized output is non-decreasing by timestamp: every adjacent
pair of output points satisfies `p_i.timestamp ≤ p_{i+1}.timestamp`, for
every granularity. -/
theorem c2_sorted_output (items : List RawItem) (g : ChartTimeInterval)
    (out : List ChartDataPoint) (h : parseJSONChartData items g = .ok out) :
    out.Chain' (fun a b => a.timestamp ≤ b.timestamp) := by
  obtain ⟨pts, _, rfl⟩ := parseJSONChartData_ok h
  exact (sorted_normalizePoints pts g).chain'

/-- Witness for C2 at a concrete input. -/
theorem c2_sorted_output_witness :
    ([] : List ChartDataPoint).Chain' (fun a b => a.timestamp ≤ b.timestamp) :=
  c2_sorted_output [] .min5 [] rfl

/-- C3 (amended): at 1-minute granularity the aggregator returns its input
unchanged.  This passthrough is not equivalent to running the general
bucketing algorithm with a 1-minute bucket width: the general algorithm
merges points that fall within the same minute (and rounds prices), as the
counterexample shows. -/
theorem c3_min1_passthrough (chartData : List ChartDataPoint) :
    aggregateDataByInterval chartData .min1 = chartData := rfl

/-- Counterexample to C3 as stated: two points 30 seconds apart lie in the
same 1-minute bucket, so width-1 bucketing merges them while the passthrough
keeps both. -/
theorem c3_counterexample :
    aggregateDataByInterval [⟨"1970-01-01T00:00:00.000Z", 10, 1, 0⟩,
      ⟨"1970-01-01T00:00:30.000Z", 20, 1, 30000⟩] .min1 ≠
    aggregateGeneral [⟨"1970-01-01T00:00:00.000Z", 10, 1, 0⟩,
      ⟨"1970-01-01T00:00:30.000Z", 20, 1, 30000⟩] .min1 := by
  intro h
  have e1 : (aggregateDataByInterval [⟨"1970-01-01T00:00:00.000Z", 10, 1, 0⟩,
      ⟨"1970-01-01T00:00:30.000Z", 20, 1, 30000⟩] .min1).length = 2 := rfl
  have e2 : (aggregateGeneral [⟨"1970-01-01T00:00:00.000Z", 10, 1, 0⟩,
      ⟨"1970-01-01T00:00:30.000Z", 20, 1, 30000⟩] .min1).length = 1 := by decide
  have hl := congrArg List.length h
  rw [e1, e2] at hl
  exact absurd hl (by decide)

theorem processItem_short {fields : List RawField} (g : ChartTimeInterval)
    (h : fields.length < 3) : processItem (.arr fields) g = .ok none := by
  rcases fields with _ | ⟨a, _ | ⟨b, _ | ⟨c, rest⟩⟩⟩
  · rfl
  · rfl
  · rfl
  · simp at h
    omega

theorem collectPoints_skip {it : RawItem} {g : ChartTimeInterval}
    (hit : processItem it g = .ok none) (pre post : List RawItem) :
    collectPoints (pre ++ it :: post) g = collectPoints (pre ++ post) g := by
  induction pre with
  | nil =>
      simp only [List.nil_append, collectPoints, hit]
      cases hpost : collectPoints post g <;>
        simp [Bind.bind, Except.bind, Pure.pure, Except.pure, hpost]
  | cons q pre ih =>
      simp only [List.cons_append, collectPoints, List.append_eq]
      rw [ih]

/-- C9: a raw tuple with fewer than 3 fields is dropped entirely: inserting
it anywhere in the input leaves the normalized result (including its
success/failure status) unchanged, so it is neither zero-defaulted into a
point nor a source of errors for the caller. -/
theorem c9_short_tuple_dropped (g : ChartTimeInterval)
    (pre post : List RawItem) (fields : List RawField)
    (h : fields.length < 3) :
    parseJSONChartData (pre ++ .arr fields :: post) g =
    parseJSONChartData (pre ++ post) g := by
  unfold parseJSONChartData
  rw [collectPoints_skip (processItem_short g h) pre post]

/-- Witness for C9 at a concrete input: a 1-field tuple is invisible. -/
theorem c9_short_tuple_dropped_witness :
    parseJSONChartData [.arr [.num 1]] .min1 = parseJSONChartData [] .min1 := by
  have h := c9_short_tuple_dropped .min1 [] [] [.num 1] (by decide)
  simpa using h

theorem addPoint_key (b : IntervalData) (p : ChartDataPoint) :
    (addPoint b p).key = b.key := rfl

theorem lookupB_update_self (m : List IntervalData) (k : String)
    (p : ChartDataPoint) :
    lookupB (updateAssoc m k p) k = some (pushB (lookupB m k) k p) := by
  induction m with
  | nil => simp [updateAssoc, lookupB, initBucket, pushB]
  | cons b rest ih =>
      by_cases hb : b.key = k
      · simp [updateAssoc, hb, lookupB, addPoint_key, pushB]
      · simp [updateAssoc, hb, lookupB, ih]

theorem lookupB_update_ne (m : List IntervalData) {k k' : String}
    (p : ChartDataPoint) (h : k' ≠ k) :
    lookupB (updateAssoc m k p) k' = lookupB m k' := by
  induction m with
  | nil => simp [updateAssoc, lookupB, initBucket, Ne.symm h]
  | cons b rest ih =>
      by_cases hb : b.key = k
      · simp [updateAssoc, hb, lookupB, addPoint_key, Ne.symm h]
      · by_cases hb2 : b.key = k'
        · simp [updateAssoc, hb, lookupB, hb2, h]
        · simp [updateAssoc, hb, lookupB, hb2, ih]

theorem keysOf_cons (b : IntervalData) (m : List IntervalData) :
    keysOf (b :: m) = b.key :: keysOf m := rfl

theorem keysOf_update (m : List IntervalData) (k : String)
    (p : ChartDataPoint) :
    keysOf (updateAssoc m k p) =
      if k ∈ keysOf m then keysOf m else keysOf m ++ [k] := by
  induction m with
  | nil => simp [updateAssoc, keysOf, initBucket]
  | cons b rest ih =>
      by_cases hb : b.key = k
      · have h1 : updateAssoc (b :: rest) k p = addPoint b p :: rest := by
          simp [updateAssoc, hb]
        have hmem : k ∈ keysOf (b :: rest) := by
          rw [keysOf_cons, hb]
          exact List.mem_cons_self _ _
        rw [h1, if_pos hmem, keysOf_cons, keysOf_cons, addPoint_key]
      · have h1 : updateAssoc (b :: rest) k p = b :: updateAssoc rest k p := by
          simp [updateAssoc, hb]
        rw [h1, keysOf_cons, ih]
        by_cases hr : k ∈ keysOf rest
        · rw [if_pos hr,
            if_pos (by rw [keysOf_cons]; exact List.mem_cons_of_mem _ hr),
            keysOf_cons]
        · rw [if_neg hr,
            if_neg (by rw [keysOf_cons]; simp [Ne.symm hb, hr]),
            keysOf_cons, List.cons_append]

theorem nodup_keys_update (m : List IntervalData) (k : String)
    (p : ChartDataPoint) (h : (keysOf m).Nodup) :
    (keysOf (updateAssoc m k p)).Nodup := by
  rw [keysOf_update]
  by_cases hm : k ∈ keysOf m
  · simpa [hm] using h
  · rw [if_neg hm]
    rw [List.nodup_append]
    exact ⟨h, List.nodup_singleton k,
      fun a ha hb => by
        rw [List.mem_singleton] at hb
        exact hm (hb ▸ ha)⟩

theorem groupFold_cons (g : ChartTimeInterval) (p : ChartDataPoint)
    (l : List ChartDataPoint) (m : List IntervalData) :
    groupFold g (p :: l) m = groupFold g l (updateAssoc m (keyOf g p) p) := rfl

theorem nodup_keys_groupFold (g : ChartTimeInterval)
    (l : List ChartDataPoint) :
    ∀ m : List IntervalData, (keysOf m).Nodup →
      (keysOf (groupFold g l m)).Nodup := by
  induction l with
  | nil => exact fun m h => h
  | cons p l ih =>
      intro m h
      rw [groupFold_cons]
      exact ih _ (nodup_keys_update m (keyOf g p) p h)

theorem mem_keysOf {b : IntervalData} {m : List IntervalData} (h : b ∈ m) :
    b.key ∈ keysOf m := List.mem_map_of_mem _ h

theorem mem_lookupB {b : IntervalData} {m : List IntervalData} (hb : b ∈ m)
    (h : (keysOf m).Nodup) : lookupB m b.key = some b := by
  induction m with
  | nil => exact absurd hb (List.not_mem_nil b)
  | cons c rest ih =>
      rcases List.mem_cons.mp hb with rfl | hmem
      · simp [lookupB]
      · have hkeys : c.key ∉ keysOf rest ∧ (keysOf rest).Nodup := by
          simpa [keysOf] using h
        have hne : c.key ≠ b.key := by
          intro he
          exact hkeys.1 (he ▸ mem_keysOf hmem)
        simp [lookupB, hne, ih hmem hkeys.2]

theorem lookupB_mem {m : List IntervalData} {k : String} {b : IntervalData}
    (h : lookupB m k = some b) : b ∈ m ∧ b.key = k := by
  induction m with
  | nil => exact absurd h (by simp [lookupB])
  | cons c rest ih =>
      by_cases hc : c.key = k
      · rw [lookupB, if_pos hc] at h
        injection h with h2
        subst h2
        exact ⟨List.mem_cons_self _ _, hc⟩
      · rw [lookupB, if_neg hc] at h
        exact ⟨List.mem_cons_of_mem _ (ih h).1, (ih h).2⟩

theorem foldl_pushB_some (k : String) (ps : List ChartDataPoint) :
    ∀ b : IntervalData,
      ps.foldl (fun o p => some (pushB o k p)) (some b) =
        some (ps.foldl addPoint b) := by
  induction ps with
  | nil => exact fun b => rfl
  | cons q ps ih => exact fun b => ih (addPoint b q)

theorem filterKey_cons (g : ChartTimeInterval) (k : String)
    (p : ChartDataPoint) (l : List ChartDataPoint) :
    filterKey g k (p :: l) =
      if keyOf g p = k then p :: filterKey g k l else filterKey g k l := by
  simp only [filterKey, List.filter_cons]
  by_cases h : keyOf g p = k <;> simp [h]

theorem lookupB_groupFold (g : ChartTimeInterval)
    (l : List ChartDataPoint) :
    ∀ (m : List IntervalData) (k : String),
      lookupB (groupFold g l m) k =
        (filterKey g k l).foldl (fun o p => some (pushB o k p))
          (lookupB m k) := by
  induction l with
  | nil => intro m k; simp [groupFold, filterKey]
  | cons p l ih =>
      intro m k
      rw [groupFold_cons]
      by_cases hk : keyOf g p = k
      · rw [filterKey_cons, if_pos hk, List.foldl_cons, ih]
        subst hk
        rw [lookupB_update_self]
      · rw [filterKey_cons, if_neg hk, ih]
        rw [lookupB_update_ne m p (fun he => hk he.symm)]

theorem foldl_addPoint_key (ps : List ChartDataPoint) :
    ∀ b : IntervalData, (ps.foldl addPoint b).key = b.key := by
  induction ps with
  | nil => exact fun b => rfl
  | cons q ps ih => exact fun b => ih (addPoint b q)

theorem foldl_addPoint_prices (ps : List ChartDataPoint) :
    ∀ b : IntervalData,
      (ps.foldl addPoint b).prices = b.prices ++ ps.map (fun p => p.price) := by
  induction ps with
  | nil => intro b; simp
  | cons q ps ih =>
      intro b
      rw [List.foldl_cons, ih (addPoint b q)]
      simp [addPoint]

theorem foldl_addPoint_volumes (ps : List ChartDataPoint) :
    ∀ b : IntervalData,
      (ps.foldl addPoint b).volumes =
        b.volumes ++ ps.map (fun p => p.volume) := by
  induction ps with
  | nil => intro b; simp
  | cons q ps ih =>
      intro b
      rw [List.foldl_cons, ih (addPoint b q)]
      simp [addPoint]

theorem foldl_addPoint_ts (ps : List ChartDataPoint) :
    ∀ b : IntervalData,
      (ps.foldl addPoint b).timestamp = b.timestamp ∨
        (ps.foldl addPoint b).timestamp ∈ ps.map (fun p => p.timestamp) := by
  induction ps with
  | nil => exact fun b => Or.inl rfl
  | cons q ps ih =>
      intro b
      rw [List.foldl_cons]
      rcases ih (addPoint b q) with h | h
      · rw [h]
        by_cases hlt : q.timestamp < b.timestamp
        · right
          simp [addPoint, hlt]
        · left
          simp [addPoint, hlt]
      · right
        simp only [List.map_cons, List.mem_cons]
        exact Or.inr h

theorem bucket_of_mem_groupFold {g : ChartTimeInterval} {b : IntervalData}
    {l : List ChartDataPoint} (hb : b ∈ groupFold g l []) :
    b.prices = (filterKey g b.key l).map (fun p => p.price) ∧
    b.volumes = (filterKey g b.key l).map (fun p => p.volume) ∧
    b.timestamp ∈ (filterKey g b.key l).map (fun p => p.timestamp) := by
  have hnd := nodup_keys_groupFold g l [] (by simp [keysOf])
  have hl := mem_lookupB hb hnd
  rw [lookupB_groupFold] at hl
  cases hfl : filterKey g b.key l with
  | nil => rw [hfl] at hl; exact absurd hl (by simp [lookupB])
  | cons p ps =>
      rw [hfl] at hl
      rw [List.foldl_cons] at hl
      have hpb : pushB (lookupB ([] : List IntervalData) b.key) b.key p =
          initBucket b.key p := rfl
      rw [hpb, foldl_pushB_some] at hl
      have h2 : ps.foldl addPoint (initBucket b.key p) = b := by
        injection hl
      refine ⟨?_, ?_, ?_⟩
      · rw [← h2, foldl_addPoint_prices]
        simp [initBucket]
      · rw [← h2, foldl_addPoint_volumes]
        simp [initBucket]
      · rw [← h2]
        rcases foldl_addPoint_ts ps (initBucket b.key p) with h | h
        · rw [h]
          simp [initBucket]
        · simp only [List.map_cons, List.mem_cons]
          exact Or.inr h

theorem exists_bucket_of_mem {g : ChartTimeInterval} {p : ChartDataPoint}
    {l : List ChartDataPoint} (hp : p ∈ l) :
    ∃ b ∈ groupFold g l [], b.key = keyOf g p := by
  have hpf : p ∈ filterKey g (keyOf g p) l := by
    simp [filterKey, List.mem_filter, hp]
  have hne : filterKey g (keyOf g p) l ≠ [] := by
    intro he
    rw [he] at hpf
    exact List.not_mem_nil p hpf
  have hlk := lookupB_groupFold g l [] (keyOf g p)
  cases hfl : filterKey g (keyOf g p) l with
  | nil => exact absurd hfl hne
  | cons q qs =>
      rw [hfl, List.foldl_cons] at hlk
      have : pushB (lookupB ([] : List IntervalData) (keyOf g p)) (keyOf g p) q =
          initBucket (keyOf g p) q := rfl
      rw [this, foldl_pushB_some] at hlk
      obtain ⟨hmem, hkey⟩ := lookupB_mem hlk
      exact ⟨_, hmem, hkey⟩

theorem keyOf_reduceBucket {g : ChartTimeInterval} {b : IntervalData}
    {l : List ChartDataPoint} (hb : b ∈ groupFold g l []) :
    keyOf g (reduceBucket g b) = b.key := by
  obtain ⟨-, -, hts⟩ := bucket_of_mem_groupFold hb
  rw [List.mem_map] at hts
  obtain ⟨q, hq, hqt⟩ := hts
  have hqk : keyOf g q = b.key := by
    have := List.of_mem_filter hq
    simpa using this
  have : keyOf g (reduceBucket g b) = keyOf g q := by
    unfold keyOf reduceBucket
    rw [← hqt]
  rw [this, hqk]

theorem mem_aggregateGeneral {g : ChartTimeInterval} {o : ChartDataPoint}
    {x : List ChartDataPoint} :
    o ∈ aggregateGeneral x g ↔
      ∃ b ∈ groupFold g x [], reduceBucket g b = o := by
  unfold aggregateGeneral
  rw [(List.perm_insertionSort tsLe _).mem_iff, List.mem_map]

theorem pairwise_keys_aggregateGeneral (x : List ChartDataPoint)
    (g : ChartTimeInterval) :
    (aggregateGeneral x g).Pairwise (fun a b => keyOf g a ≠ keyOf g b) := by
  have hnd := nodup_keys_groupFold g x [] (by simp [keysOf])
  have hpm : (groupFold g x []).Pairwise (fun a b => a.key ≠ b.key) :=
    List.pairwise_map.mp hnd
  have hpr : (List.map (reduceBucket g) (groupFold g x [])).Pairwise
      (fun a b => keyOf g a ≠ keyOf g b) := by
    rw [List.pairwise_map]
    refine List.Pairwise.imp_of_mem ?_ hpm
    intro a b ha hb hne
    rw [keyOf_reduceBucket ha, keyOf_reduceBucket hb]
    exact hne
  have hsymm : ∀ {a b : ChartDataPoint},
      keyOf g a ≠ keyOf g b → keyOf g b ≠ keyOf g a :=
    fun h he => h he.symm
  exact ((List.perm_insertionSort tsLe _).pairwise_iff hsymm).mpr hpr

/-- C5: volume conservation.  At 1-minute granularity each volume passes
through unchanged.  At any coarser granularity, each output point carries
exactly the summed volume of the input points whose bucket key equals its
own, output keys are pairwise distinct (so no input volume is counted
twice), and every input point has an output point for its key (so no input
volume is lost). -/
theorem c5_volume_conservation (x : List ChartDataPoint)
    (g : ChartTimeInterval) :
    (g = .min1 → aggregateDataByInterval x g = x) ∧
    (g ≠ .min1 →
      (∀ o ∈ aggregateDataByInterval x g,
        o.volume = ((filterKey g (keyOf g o) x).map (fun p => p.volume)).sum) ∧
      (aggregateDataByInterval x g).Pairwise
        (fun a b => keyOf g a ≠ keyOf g b) ∧
      (∀ p ∈ x, ∃ o ∈ aggregateDataByInterval x g,
        keyOf g o = keyOf g p)) := by
  constructor
  · intro hg
    subst hg
    rfl
  · intro hg
    have hagg : aggregateDataByInterval x g = aggregateGeneral x g := by
      simp [aggregateDataByInterval, hg]
    rw [hagg]
    refine ⟨?_, pairwise_keys_aggregateGeneral x g, ?_⟩
    · intro o ho
      obtain ⟨b, hb, rfl⟩ := mem_aggregateGeneral.mp ho
      have hfields := bucket_of_mem_groupFold hb
      rw [keyOf_reduceBucket hb]
      show b.volumes.sum = _
      rw [hfields.2.1]
    · intro p hp
      obtain ⟨b, hb, hkey⟩ := exists_bucket_of_mem (g := g) hp
      exact ⟨reduceBucket g b, mem_aggregateGeneral.mpr ⟨b, hb, rfl⟩,
        by rw [keyOf_reduceBucket hb, hkey]⟩

/-- Witness for C5 at a concrete input, exercising the passthrough clause. -/
theorem c5_volume_conservation_witness :
    aggregateDataByInterval [] .min1 = ([] : List ChartDataPoint) :=
  (c5_volume_conservation [] .min1).1 rfl

theorem lookupB_eq_none {m : List IntervalData} {k : String} :
    lookupB m k = none ↔ k ∉ keysOf m := by
  induction m with
  | nil => simp [lookupB, keysOf]
  | cons b rest ih =>
      by_cases hb : b.key = k
      · simp [lookupB, hb, keysOf_cons]
      · simp [lookupB, hb, keysOf_cons, ih, Ne.symm hb]

theorem updateAssoc_fresh (m : List IntervalData) (k : String)
    (p : ChartDataPoint) (h : lookupB m k = none) :
    updateAssoc m k p = m ++ [initBucket k p] := by
  induction m with
  | nil => rfl
  | cons b rest ih =>
      by_cases hb : b.key = k
      · rw [lookupB, if_pos hb] at h
        exact absurd h (by simp)
      · rw [lookupB, if_neg hb] at h
        simp [updateAssoc, hb, ih h]

theorem keysOf_append (m m' : List IntervalData) :
    keysOf (m ++ m') = keysOf m ++ keysOf m' := by
  simp [keysOf]

theorem groupFold_distinct (g : ChartTimeInterval)
    (l : List ChartDataPoint) :
    ∀ m : List IntervalData,
      (∀ p ∈ l, lookupB m (keyOf g p) = none) →
      (l.map (keyOf g)).Nodup →
      groupFold g l m = m ++ l.map (fun p => initBucket (keyOf g p) p) := by
  induction l with
  | nil => intro m _ _; simp [groupFold]
  | cons p l ih =>
      intro m hm hnd
      have hnd2 : keyOf g p ∉ l.map (keyOf g) ∧ (l.map (keyOf g)).Nodup := by
        rw [List.map_cons] at hnd
        exact List.nodup_cons.mp hnd
      rw [groupFold_cons, updateAssoc_fresh m _ p (hm p (List.mem_cons_self p l))]
      rw [ih (m ++ [initBucket (keyOf g p) p]) ?_ hnd2.2]
      · simp
      · intro q hq
        rw [lookupB_eq_none, keysOf_append]
        simp only [List.mem_append]
        rintro (hmem | hmem)
        · exact (lookupB_eq_none.mp (hm q (List.mem_cons_of_mem p hq))) hmem
        · have : keyOf g q = keyOf g p := by
            simpa [keysOf, initBucket] using hmem
          exact hnd2.1 (this ▸ List.mem_map_of_mem (keyOf g) hq)

theorem reduce_init_canonical {g : ChartTimeInterval} {p : ChartDataPoint}
    (h : canonicalAt g p) (k : String) :
    reduceBucket g (initBucket k p) = p := by
  obtain ⟨hp, hd⟩ := h
  cases p with
  | mk d pr v t =>
      simp only [canonicalAt] at hp hd
      simp [reduceBucket, initBucket, List.sum_cons, List.sum_nil, add_zero,
        div_one, hp, hd]

theorem aggregateGeneral_of_distinct {g : ChartTimeInterval}
    {x : List ChartDataPoint} (hnd : (x.map (keyOf g)).Nodup)
    (hs : List.Sorted tsLe x) (hc : ∀ p ∈ x, canonicalAt g p) :
    aggregateGeneral x g = x := by
  unfold aggregateGeneral
  rw [groupFold_distinct g x [] (by intro p _; rfl) hnd]
  rw [List.nil_append, List.map_map]
  rw [show (reduceBucket g ∘ fun p => initBucket (keyOf g p) p) =
    fun p => reduceBucket g (initBucket (keyOf g p) p) from rfl]
  have hmap : x.map (fun p => reduceBucket g (initBucket (keyOf g p) p)) =
      x.map (fun p => p) :=
    List.map_congr_left (fun p hp => reduce_init_canonical (hc p hp) (keyOf g p))
  rw [hmap, List.map_id']
  exact hs.insertionSort_eq

theorem canonical_aggregateGeneral {g : ChartTimeInterval}
    {x : List ChartDataPoint} :
    ∀ o ∈ aggregateGeneral x g, canonicalAt g o := by
  intro o ho
  obtain ⟨b, hb, rfl⟩ := mem_aggregateGeneral.mp ho
  exact ⟨round2_idem _, rfl⟩

theorem aggregate_eq_general {x : List ChartDataPoint}
    {g : ChartTimeInterval} (hg : g ≠ .min1) :
    aggregateDataByInterval x g = aggregateGeneral x g := by
  simp [aggregateDataByInterval, hg]

theorem canonical_normalizePoints {g : ChartTimeInterval} (hg : g ≠ .min1)
    (pts : List ChartDataPoint) :
    ∀ o ∈ normalizePoints pts g, canonicalAt g o := by
  intro o ho
  simp only [normalizePoints, aggregate_eq_general hg] at ho
  exact canonical_aggregateGeneral _ ((List.drop_sublist _ _).subset ho)

theorem pairwise_keys_normalizePoints {g : ChartTimeInterval}
    (hg : g ≠ .min1) (pts : List ChartDataPoint) :
    (normalizePoints pts g).Pairwise (fun a b => keyOf g a ≠ keyOf g b) := by
  simp only [normalizePoints, aggregate_eq_general hg]
  exact List.Pairwise.sublist (List.drop_sublist _ _)
    (pairwise_keys_aggregateGeneral _ g)

/-- C4: normalization is idempotent at a fixed granularity: running the
sort / bucket / trim pipeline on its own output (at the same granularity)
returns that output unchanged, with identical dates, prices, volumes and
timestamps in the same order. -/
theorem c4_idempotent (pts : List ChartDataPoint) (g : ChartTimeInterval) :
    normalizePoints (normalizePoints pts g) g = normalizePoints pts g := by
  have hs : List.Sorted tsLe (normalizePoints pts g) :=
    sorted_normalizePoints pts g
  have hlen : (normalizePoints pts g).length ≤ getDataLimitForInterval g :=
    length_normalizePoints pts g
  have hsort : List.insertionSort tsLe (normalizePoints pts g) =
      normalizePoints pts g := hs.insertionSort_eq
  by_cases hg : g = .min1
  · subst hg
    conv_lhs => rw [normalizePoints]
    rw [hsort]
    have hpass : aggregateDataByInterval (normalizePoints pts .min1) .min1 =
        normalizePoints pts .min1 := by
      simp [aggregateDataByInterval]
    rw [hpass, Nat.sub_eq_zero_of_le hlen, List.drop_zero]
  · have hnd : ((normalizePoints pts g).map (keyOf g)).Nodup :=
      List.pairwise_map.mpr (pairwise_keys_normalizePoints hg pts)
    conv_lhs => rw [normalizePoints]
    rw [hsort, aggregate_eq_general hg,
      aggregateGeneral_of_distinct hnd hs (canonical_normalizePoints hg pts),
      Nat.sub_eq_zero_of_le hlen, List.drop_zero]

theorem bucketDate_day1_intCast (n : ℤ) :
    bucketDate .day1 ((n : ℚ)) = toISODateFromDay (Int.fdiv n 86400000) := by
  simp [bucketDate, jsTrunc_intCast]

theorem getIntervalKey_day1_intCast (n : ℤ) (m : Nat) :
    getIntervalKey ((n : ℚ)) .day1 m =
      toISODateFromDay (Int.fdiv n 86400000) := by
  simp [getIntervalKey, jsTrunc_intCast]

/-- C6: two raw points 12 hours apart within the same UTC calendar day, with
prices 10 and 12 and volumes 100 and 50, normalize at 1-day granularity to a
single output point with price 11.00, volume 150, and display date equal to
that calendar day (the ISO date of the shared epoch day). -/
theorem c6_daily_merge (t1 t2 : ℤ)
    (h12 : t2 = t1 + 43200)
    (hday : Int.fdiv (t1 * 1000) 86400000 = Int.fdiv (t2 * 1000) 86400000)
    (hl : -8640000000000000 ≤ t1 * 1000)
    (hu : t2 * 1000 ≤ 8640000000000000) :
    parseJSONChartData
      [.arr [.num ((t1 : ℚ)), .num 10, .num 100],
       .arr [.num ((t2 : ℚ)), .num 12, .num 50]] .day1 =
    .ok [⟨toISODateFromDay (Int.fdiv (t1 * 1000) 86400000), 11, 150,
      ((t1 * 1000 : ℤ) : ℚ)⟩] := by
  have hle : t1 * 1000 ≤ t2 * 1000 := by omega
  have hm1 : jsMul1000 ((t1 : ℚ)) = ((t1 * 1000 : ℤ) : ℚ) := by
    rw [jsMul1000_eq]
    push_cast
    ring
  have hm2 : jsMul1000 ((t2 : ℚ)) = ((t2 * 1000 : ℤ) : ℚ) := by
    rw [jsMul1000_eq]
    push_cast
    ring
  have hnot1 : ¬(((t1 * 1000 : ℤ) : ℚ) < -8640000000000000 ∨
      8640000000000000 < ((t1 * 1000 : ℤ) : ℚ)) := by
    push_neg
    constructor
    · exact_mod_cast hl
    · exact_mod_cast (by omega : t1 * 1000 ≤ (8640000000000000 : ℤ))
  have hnot2 : ¬(((t2 * 1000 : ℤ) : ℚ) < -8640000000000000 ∨
      8640000000000000 < ((t2 * 1000 : ℤ) : ℚ)) := by
    push_neg
    constructor
    · exact_mod_cast (by omega : (-8640000000000000 : ℤ) ≤ t2 * 1000)
    · exact_mod_cast hu
  have hp1 : processItem (.arr [.num ((t1 : ℚ)), .num 10, .num 100]) .day1 =
      .ok (some ⟨toISODateFromDay (Int.fdiv (t1 * 1000) 86400000), 10, 100,
        ((t1 * 1000 : ℤ) : ℚ)⟩) := by
    simp only [processItem, jsToNumber, hm1]
    rw [if_neg hnot1]
    have hf : (parseFloatF (RawField.num 10)).getD 0 = (10 : ℚ) := by decide
    have hv : (parseIntF (RawField.num 100)).getD 0 = (100 : ℤ) := by decide
    rw [hf, hv, bucketDate_day1_intCast]
  have hp2 : processItem (.arr [.num ((t2 : ℚ)), .num 12, .num 50]) .day1 =
      .ok (some ⟨toISODateFromDay (Int.fdiv (t1 * 1000) 86400000), 12, 50,
        ((t2 * 1000 : ℤ) : ℚ)⟩) := by
    simp only [processItem, jsToNumber, hm2]
    rw [if_neg hnot2]
    have hf : (parseFloatF (RawField.num 12)).getD 0 = (12 : ℚ) := by decide
    have hv : (parseIntF (RawField.num 50)).getD 0 = (50 : ℤ) := by decide
    rw [hf, hv, bucketDate_day1_intCast, ← hday]
  have hc : collectPoints
      [.arr [.num ((t1 : ℚ)), .num 10, .num 100],
       .arr [.num ((t2 : ℚ)), .num 12, .num 50]] .day1 =
      .ok [⟨toISODateFromDay (Int.fdiv (t1 * 1000) 86400000), 10, 100,
        ((t1 * 1000 : ℤ) : ℚ)⟩,
        ⟨toISODateFromDay (Int.fdiv (t1 * 1000) 86400000), 12, 50,
        ((t2 * 1000 : ℤ) : ℚ)⟩] := by
    simp only [collectPoints, hp1, hp2]
    rfl
  have hkey12 : keyOf .day1
      (⟨toISODateFromDay (Int.fdiv (t1 * 1000) 86400000), 12, 50,
        ((t2 * 1000 : ℤ) : ℚ)⟩ : ChartDataPoint) = keyOf .day1
      (⟨toISODateFromDay (Int.fdiv (t1 * 1000) 86400000), 10, 100,
        ((t1 * 1000 : ℤ) : ℚ)⟩ : ChartDataPoint) := by
    show getIntervalKey ((t2 * 1000 : ℤ) : ℚ) .day1 (getIntervalMinutes .day1) =
      getIntervalKey ((t1 * 1000 : ℤ) : ℚ) .day1 (getIntervalMinutes .day1)
    rw [getIntervalKey_day1_intCast, getIntervalKey_day1_intCast, ← hday]
  have hagg : normalizePoints
      [⟨toISODateFromDay (Int.fdiv (t1 * 1000) 86400000), 10, 100,
        ((t1 * 1000 : ℤ) : ℚ)⟩,
       ⟨toISODateFromDay (Int.fdiv (t1 * 1000) 86400000), 12, 50,
        ((t2 * 1000 : ℤ) : ℚ)⟩] .day1 =
      [⟨toISODateFromDay (Int.fdiv (t1 * 1000) 86400000), 11, 150,
        ((t1 * 1000 : ℤ) : ℚ)⟩] := by
    have hsorted : List.Sorted tsLe
        [⟨toISODateFromDay (Int.fdiv (t1 * 1000) 86400000), 10, 100,
          ((t1 * 1000 : ℤ) : ℚ)⟩,
         ⟨toISODateFromDay (Int.fdiv (t1 * 1000) 86400000), 12, 50,
          ((t2 * 1000 : ℤ) : ℚ)⟩] := by
      refine List.Pairwise.cons ?_ (List.pairwise_singleton _ _)
      intro b hb
      rw [List.mem_singleton] at hb
      subst hb
      show ((t1 * 1000 : ℤ) : ℚ) ≤ ((t2 * 1000 : ℤ) : ℚ)
      exact_mod_cast hle
    simp only [normalizePoints]
    rw [hsorted.insertionSort_eq,
      aggregate_eq_general (by decide : ChartTimeInterval.day1 ≠ .min1)]
    simp only [aggregateGeneral]
    have hgf : groupFold .day1
        [⟨toISODateFromDay (Int.fdiv (t1 * 1000) 86400000), 10, 100,
          ((t1 * 1000 : ℤ) : ℚ)⟩,
         ⟨toISODateFromDay (Int.fdiv (t1 * 1000) 86400000), 12, 50,
          ((t2 * 1000 : ℤ) : ℚ)⟩] [] =
        [⟨keyOf .day1 (⟨toISODateFromDay (Int.fdiv (t1 * 1000) 86400000),
            10, 100, ((t1 * 1000 : ℤ) : ℚ)⟩ : ChartDataPoint),
          [10, 12], [100, 50], ((t1 * 1000 : ℤ) : ℚ)⟩] := by
      simp only [groupFold, List.foldl_cons, List.foldl_nil]
      rw [show updateAssoc []
        (keyOf .day1 (⟨toISODateFromDay (Int.fdiv (t1 * 1000) 86400000),
          10, 100, ((t1 * 1000 : ℤ) : ℚ)⟩ : ChartDataPoint))
        (⟨toISODateFromDay (Int.fdiv (t1 * 1000) 86400000), 10, 100,
          ((t1 * 1000 : ℤ) : ℚ)⟩ : ChartDataPoint) =
        [initBucket (keyOf .day1
          (⟨toISODateFromDay (Int.fdiv (t1 * 1000) 86400000), 10, 100,
            ((t1 * 1000 : ℤ) : ℚ)⟩ : ChartDataPoint))
          (⟨toISODateFromDay (Int.fdiv (t1 * 1000) 86400000), 10, 100,
            ((t1 * 1000 : ℤ) : ℚ)⟩ : ChartDataPoint)] from rfl]
      simp only [updateAssoc]
      rw [if_pos (by rw [initBucket]; exact hkey12.symm)]
      have hts : ¬(((t2 * 1000 : ℤ) : ℚ) < ((t1 * 1000 : ℤ) : ℚ)) := by
        push_neg
        exact_mod_cast hle
      simp [addPoint, initBucket, hts]
      omega
    rw [hgf, List.map_cons, List.map_nil]
    have hred : reduceBucket .day1
        (⟨keyOf .day1 (⟨toISODateFromDay (Int.fdiv (t1 * 1000) 86400000),
            10, 100, ((t1 * 1000 : ℤ) : ℚ)⟩ : ChartDataPoint),
          [10, 12], [100, 50], ((t1 * 1000 : ℤ) : ℚ)⟩ : IntervalData) =
        ⟨toISODateFromDay (Int.fdiv (t1 * 1000) 86400000), 11, 150,
          ((t1 * 1000 : ℤ) : ℚ)⟩ := by
      have havg : (([10, 12] : List ℚ)).sum /
          ((([10, 12] : List ℚ)).length : ℚ) = 11 := by
        norm_num [List.sum_cons, List.sum_nil]
      have h11 : round2 (11 : ℚ) = 11 := by
        rw [round2]
        norm_num
      have hvol : (([100, 50] : List ℤ)).sum = 150 := by decide
      simp only [reduceBucket, havg, h11, hvol]
      rw [bucketDate_day1_intCast]
    rw [hred]
    rfl
  unfold parseJSONChartData
  rw [hc]
  simp only [Except.map]
  rw [hagg]

/-- Witness for C6 at the concrete day 2023-11-15: midnight and noon UTC. -/
theorem c6_daily_merge_witness :
    parseJSONChartData
      [.arr [.num (((1700006400 : ℤ) : ℚ)), .num 10, .num 100],
       .arr [.num (((1700049600 : ℤ) : ℚ)), .num 12, .num 50]] .day1 =
    .ok [⟨toISODateFromDay (Int.fdiv ((1700006400 : ℤ) * 1000) 86400000), 11,
      150, (((1700006400 : ℤ) * 1000 : ℤ) : ℚ)⟩] :=
  c6_daily_merge 1700006400 1700049600 (by decide) (by decide) (by decide)
    (by decide)

/-- Counterexample to C7 as stated: the tuple `[0, 10, -5]` is structurally
valid, and its parsed volume is the negative integer -5, because
`parseInt(item[2]) || 0` only replaces `NaN` (and 0) by 0 and passes
negative values through. -/
theorem c7_counterexample :
    (processItem (.arr [.num 0, .num 10, .num (-5)]) .min1).toOption.join.map
      (fun p => p.volume) = some (-5) := by
  decide

/-- C7 (amended): for every structurally valid raw tuple that yields a
point, the price is the float coercion of the second field with 0 for a
failed coercion, and the volume is the integer coercion of the third field
with 0 for a failed coercion; the volume is non-negative exactly when the
third field does not coerce to a negative integer (negative values pass
through, so the volume is an integer but not always non-negative). -/
theorem c7_field_coercion (f0 f1 f2 : RawField) (rest : List RawField)
    (g : ChartTimeInterval) (p : ChartDataPoint)
    (h : processItem (.arr (f0 :: f1 :: f2 :: rest)) g = .ok (some p)) :
    p.price = (parseFloatF f1).getD 0 ∧
    p.volume = (parseIntF f2).getD 0 ∧
    (0 ≤ p.volume ↔ ∀ n, parseIntF f2 = some n → 0 ≤ n) := by
  simp only [processItem] at h
  split at h
  · exact absurd h (by simp)
  · split at h
    · exact absurd h (by simp)
    · injection h with h2
      injection h2 with h3
      subst h3
      refine ⟨rfl, rfl, ?_⟩
      cases hf : parseIntF f2 with
      | none => simp [hf]
      | some n => simp [hf]

/-- Witness for C7 (amended) at a concrete input. -/
theorem c7_field_coercion_witness :
    ({ date := bucketDate .min1 (jsMul1000 0), price := 10, volume := 100,
       timestamp := jsMul1000 0 } : ChartDataPoint).price =
      (parseFloatF (.num 10)).getD 0 :=
  (c7_field_coercion (.num 0) (.num 10) (.num 100) [] .min1 _ rfl).1

/-- Counterexample to C8 as stated: a quote row with exactly 10 cells whose
first cell has both sub-elements produces no record, because the parser
reads `cells[10]` (the 11th column) and the resulting error is caught,
silently skipping the row. -/
theorem c8_counterexample :
    parseHTMLData [[⟨some "ABC", some (some "ABC Limited"), "", none⟩,
      ⟨none, none, "", none⟩, ⟨none, none, "SEC", none⟩,
      ⟨none, none, "", some "1"⟩, ⟨none, none, "", some "2"⟩,
      ⟨none, none, "", some "3"⟩, ⟨none, none, "", some "4"⟩,
      ⟨none, none, "", some "5"⟩, ⟨none, none, "", some "0"⟩,
      ⟨none, none, "", some "6"⟩]] = [] ∧
    ([⟨some "ABC", some (some "ABC Limited"), "", none⟩,
      ⟨none, none, "", none⟩, ⟨none, none, "SEC", none⟩,
      ⟨none, none, "", some "1"⟩, ⟨none, none, "", some "2"⟩,
      ⟨none, none, "", some "3"⟩, ⟨none, none, "", some "4"⟩,
      ⟨none, none, "", some "5"⟩, ⟨none, none, "", some "0"⟩,
      ⟨none, none, "", some "6"⟩] : List Cell).length = 10 := by
  constructor <;> rfl

/-- C8 (amended): every table row with at least 11 cells whose first cell
has the symbol and company sub-elements yields exactly one quote record,
with `isPositive` derived as the JS comparison `change >= 0` (so a zero
change counts as non-negative); every row the per-row parser rejects is
silently skipped and contributes nothing, with no error reaching the
caller.  Rows with exactly 10 cells are rejected (see the counterexample),
which is the only difference from the claim as stated. -/
theorem c8_quote_rows :
    (∀ (cells : List Cell) (c0 : Cell), 11 ≤ cells.length →
      cells[0]? = some c0 → c0.strongText.isSome → c0.anchorTitle.isSome →
      ∃ s, rowToStock cells = some s ∧
        s.isPositive = jsGe s.change (JsNum.val 0) ∧
        (s.change = JsNum.val 0 → s.isPositive = true)) ∧
    (∀ (rows1 rows2 : List (List Cell)) (cells : List Cell),
      rowToStock cells = none →
      parseHTMLData (rows1 ++ cells :: rows2) =
        parseHTMLData (rows1 ++ rows2)) := by
  constructor
  · intro cells c0 hlen h0 hst hat
    obtain ⟨st, hst2⟩ := Option.isSome_iff_exists.mp hst
    obtain ⟨ti, hat2⟩ := Option.isSome_iff_exists.mp hat
    have h10 : 10 ≤ cells.length := by omega
    obtain ⟨c2, hc2⟩ : ∃ c, cells[2]? = some c :=
      ⟨_, List.getElem?_eq_getElem (by omega)⟩
    obtain ⟨c3, hc3⟩ : ∃ c, cells[3]? = some c :=
      ⟨_, List.getElem?_eq_getElem (by omega)⟩
    obtain ⟨c4, hc4⟩ : ∃ c, cells[4]? = some c :=
      ⟨_, List.getElem?_eq_getElem (by omega)⟩
    obtain ⟨c5, hc5⟩ : ∃ c, cells[5]? = some c :=
      ⟨_, List.getElem?_eq_getElem (by omega)⟩
    obtain ⟨c6, hc6⟩ : ∃ c, cells[6]? = some c :=
      ⟨_, List.getElem?_eq_getElem (by omega)⟩
    obtain ⟨c7, hc7⟩ : ∃ c, cells[7]? = some c :=
      ⟨_, List.getElem?_eq_getElem (by omega)⟩
    obtain ⟨c8, hc8⟩ : ∃ c, cells[8]? = some c :=
      ⟨_, List.getElem?_eq_getElem (by omega)⟩
    obtain ⟨c9, hc9⟩ : ∃ c, cells[9]? = some c :=
      ⟨_, List.getElem?_eq_getElem (by omega)⟩
    obtain ⟨c10, hc10⟩ : ∃ c, cells[10]? = some c :=
      ⟨_, List.getElem?_eq_getElem (by omega)⟩
    have hred : rowToStock cells = some
        { symbol := st.trim, company := ti.getD "", sector := c2.text.trim,
          ldcp := jsParseFloatNum (c3.dataOrder.getD "0"),
          open_ := jsParseFloatNum (c4.dataOrder.getD "0"),
          high := jsParseFloatNum (c5.dataOrder.getD "0"),
          low := jsParseFloatNum (c6.dataOrder.getD "0"),
          current := jsParseFloatNum (c7.dataOrder.getD "0"),
          change := jsParseFloatNum (c8.dataOrder.getD "0"),
          changePercent := jsParseFloatNum (c9.dataOrder.getD "0"),
          volume := jsParseIntNum (c10.dataOrder.getD "0"),
          isPositive := jsGe (jsParseFloatNum (c8.dataOrder.getD "0"))
            (JsNum.val 0) } := by
      simp only [rowToStock, if_pos h10, h0, hst2, hat2, hc2, hc3, hc4, hc5,
        hc6, hc7, hc8, hc9, hc10, Option.bind_some]
      rfl
    refine ⟨_, hred, rfl, ?_⟩
    intro hz
    show jsGe (jsParseFloatNum (c8.dataOrder.getD "0")) (JsNum.val 0) = true
    have hz2 : jsParseFloatNum (c8.dataOrder.getD "0") = JsNum.val 0 := hz
    rw [hz2]
    rfl
  · intro rows1 rows2 cells h
    simp [parseHTMLData, List.filterMap_append, List.filterMap_cons, h]

/-- Witness for C8 (amended) at a concrete input, exercising the silent-skip
clause on a row with too few cells. -/
theorem c8_quote_rows_witness :
    parseHTMLData ([] ++ [⟨none, none, "", none⟩] :: []) =
      parseHTMLData ([] ++ []) :=
  c8_quote_rows.2 [] [] [⟨none, none, "", none⟩] rfl

/-- Counterexample to C10 as stated: a record whose change is `NaN` is
counted by none of gainers, losers and unchanged, so the three do not
partition the input.  Fields in order: symbol, company, sector, ldcp, open,
high, low, current, change, changePercent, volume, isPositive. -/
theorem c10_counterexample :
    (calculateMarketSummary [⟨"X", "Y", "Z", .val 1, .val 1, .val 1, .val 1,
      .val 1, .nan, .val 0, .val 5, false⟩]).gainers +
    (calculateMarketSummary [⟨"X", "Y", "Z", .val 1, .val 1, .val 1, .val 1,
      .val 1, .nan, .val 0, .val 5, false⟩]).losers +
    (calculateMarketSummary [⟨"X", "Y", "Z", .val 1, .val 1, .val 1, .val 1,
      .val 1, .nan, .val 0, .val 5, false⟩]).unchanged = 0 ∧
    (calculateMarketSummary [⟨"X", "Y", "Z", .val 1, .val 1, .val 1, .val 1,
      .val 1, .nan, .val 0, .val 5, false⟩]).totalStocks = 1 := by
  constructor <;> rfl

theorem partition_count (stocks : List StockData)
    (h : ∀ s ∈ stocks, s.change ≠ JsNum.nan) :
    (stocks.filter (fun s => jsGt s.change (JsNum.val 0))).length +
    (stocks.filter (fun s => jsLt s.change (JsNum.val 0))).length +
    (stocks.filter (fun s => jsStrictEq s.change (JsNum.val 0))).length =
      stocks.length := by
  induction stocks with
  | nil => rfl
  | cons s rest ih =>
      have hrest := ih (fun t ht => h t (List.mem_cons_of_mem _ ht))
      cases hc : s.change with
      | nan => exact absurd hc (h s (List.mem_cons_self _ _))
      | val q =>
          have hgt : jsGt s.change (JsNum.val 0) = decide (0 < q) := by
            rw [hc]
            rfl
          have hlt : jsLt s.change (JsNum.val 0) = decide (q < 0) := by
            rw [hc]
            rfl
          have heq : jsStrictEq s.change (JsNum.val 0) = decide (q = 0) := by
            rw [hc]
            rfl
          rcases lt_trichotomy q 0 with hq | hq | hq
          · rw [List.filter_cons, List.filter_cons, List.filter_cons, hgt,
              hlt, heq, decide_eq_false (not_lt.mpr hq.le),
              decide_eq_true hq, decide_eq_false hq.ne]
            simp only [Bool.false_eq_true, if_false, if_true,
              List.length_cons]
            omega
          · rw [List.filter_cons, List.filter_cons, List.filter_cons, hgt,
              hlt, heq, decide_eq_false (by rw [hq]; exact lt_irrefl 0),
              decide_eq_false (by rw [hq]; exact lt_irrefl 0),
              decide_eq_true hq]
            simp only [Bool.false_eq_true, if_false, if_true,
              List.length_cons]
            omega
          · rw [List.filter_cons, List.filter_cons, List.filter_cons, hgt,
              hlt, heq, decide_eq_true hq,
              decide_eq_false (not_lt.mpr hq.le),
              decide_eq_false (ne_of_gt hq)]
            simp only [Bool.false_eq_true, if_false, if_true,
              List.length_cons]
            omega

theorem foldl_jsAdd (stocks : List StockData) :
    ∀ a : ℚ, (∀ s ∈ stocks, s.volume ≠ JsNum.nan) →
      stocks.foldl (fun sum s => jsAdd sum s.volume) (JsNum.val a) =
        JsNum.val (a + (stocks.map (fun s => s.volume.toQ)).sum) := by
  induction stocks with
  | nil => intro a _; simp
  | cons s rest ih =>
      intro a h
      cases hv : s.volume with
      | nan => exact absurd hv (h s (List.mem_cons_self _ _))
      | val q =>
          rw [List.foldl_cons]
          have hstep : jsAdd (JsNum.val a) s.volume = JsNum.val (a + q) := by
            rw [hv]
            rfl
          rw [hstep, ih (a + q) (fun t ht => h t (List.mem_cons_of_mem _ ht))]
          rw [List.map_cons, List.sum_cons, hv]
          show JsNum.val (a + q + _) = JsNum.val (a + (q + _))
          rw [add_assoc]

/-- C10 (amended): for every list of stock records whose change values are
actual numbers (not `NaN`), gainers, losers and unchanged partition the
list: they count `change > 0`, `change < 0` and `change === 0` records
respectively and sum to `totalStocks`, which is the input length; and when
all volumes are numbers, `totalVolume` is the exact sum of the volumes.
With a `NaN` change the partition fails (see the counterexample), since
`NaN` makes all three comparisons false. -/
theorem c10_partition (stocks : List StockData)
    (h : ∀ s ∈ stocks, s.change ≠ JsNum.nan) :
    (calculateMarketSummary stocks).gainers +
      (calculateMarketSummary stocks).losers +
      (calculateMarketSummary stocks).unchanged =
      (calculateMarketSummary stocks).totalStocks ∧
    (calculateMarketSummary stocks).totalStocks = stocks.length ∧
    ((∀ s ∈ stocks, s.volume ≠ JsNum.nan) →
      (calculateMarketSummary stocks).totalVolume =
        JsNum.val ((stocks.map (fun s => s.volume.toQ)).sum)) := by
  refine ⟨partition_count stocks h, rfl, ?_⟩
  intro hv
  show stocks.foldl _ (JsNum.val 0) = _
  rw [foldl_jsAdd stocks 0 hv, zero_add]

/-- Witness for C10 (amended) at a concrete input. -/
theorem c10_partition_witness :
    (calculateMarketSummary [⟨"X", "Y", "Z", .val 1, .val 1, .val 1, .val 1,
      .val 1, .val 2, .val 0, .val 5, true⟩]).gainers +
    (calculateMarketSummary [⟨"X", "Y", "Z", .val 1, .val 1, .val 1, .val 1,
      .val 1, .val 2, .val 0, .val 5, true⟩]).losers +
    (calculateMarketSummary [⟨"X", "Y", "Z", .val 1, .val 1, .val 1, .val 1,
      .val 1, .val 2, .val 0, .val 5, true⟩]).unchanged =
    (calculateMarketSummary [⟨"X", "Y", "Z", .val 1, .val 1, .val 1, .val 1,
      .val 1, .val 2, .val 0, .val 5, true⟩]).totalStocks :=
  (c10_partition _ (by decide)).1

end PSX
